import Mathlib

/-!
Shallow embedding of the zero-knowledge 3-coloring authentication protocol
implemented by `passwords_match` in `ECE_545_Project_Script.py`, together with
theorems settling the specification's claims about it.

Modelling conventions:
* Python `int` node ids and colors become `Nat`.
* The SHA-256 digest function is an abstract parameter `hash : String → String`;
  collision-freedom is expressed, where a claim needs it, as injectivity of
  `hash`.
* Python dictionaries keyed by nodes become functions; the coloring dictionary
  `password_coloring`, which may lack a key, becomes an `Option`-valued
  function, and a lookup of a missing key is a `PyErr.keyError`.
* The randomness consumed by one round — the in-place shuffle of `[0, 1, 2]`,
  the per-node nonces from `secrets.token_hex`, and the edge drawn by
  `random.choice(edges)` (modelled as an index) — is an explicit `RoundRand`
  input; theorems quantify over all outcomes satisfying the invariants those
  library calls guarantee (the shuffled list is a permutation of `[0, 1, 2]`;
  the chosen index is below the edge-list length whenever the list is
  non-empty).
* Python exceptions (`KeyError` from a dict lookup, `IndexError` from
  `random.choice` on an empty list) become `Except PyErr`.
-/

namespace ZKP

/-- A graph as `passwords_match` consumes it: the node list (`graph.nodes()`)
and the edge list (`edges = list(graph.edges())`). -/
structure Graph where
  nodes : List Nat
  edges : List (Nat × Nat)

/-- The two Python exceptions `passwords_match` can raise: `KeyError` from a
dictionary lookup and `IndexError` from `random.choice` on an empty list. -/
inductive PyErr where
  | keyError
  | indexError
deriving DecidableEq, Repr

/-- The randomness one round consumes: the shuffled copy of `[0, 1, 2]`
(`random.shuffle(base)`), the nonce drawn for each node
(`secrets.token_hex(16)`), and the index of the challenge edge
(`random.choice(edges)`). -/
structure RoundRand where
  base : List Nat
  nonce : Nat → String
  choice : Nat

/-- The string the script hashes: `f"{v}||{pc}||{nonce}"`. -/
def msg (v pc : Nat) (nonce : String) : String :=
  toString v ++ "||" ++ toString pc ++ "||" ++ nonce

/-- `hashlib.sha256(f"{v}||{pc}||{nonce}".encode()).hexdigest()` with the
digest function abstract. -/
def commit (hash : String → String) (v pc : Nat) (nonce : String) : String :=
  hash (msg v pc nonce)

/-- The verification test the script performs for a challenged endpoint:
recompute the digest from the revealed values and compare it with the stored
commitment (`hashlib.sha256(f"{u}||{permuted[u]}||{nonces[u]}".encode()).hexdigest() == commitments[u]`). -/
def verify (hash : String → String) (v pc : Nat) (nonce : String) (c : String) : Bool :=
  commit hash v pc nonce == c

/-- The permutation dictionary `perm = {i: base[i] for i in range(3)}` read at
key `c`: defined (as `base[c]`) exactly when `c ∈ {0, 1, 2}`, a `KeyError`
otherwise. -/
def permOf (base : List Nat) (c : Nat) : Option Nat :=
  if c < 3 then some (base.getD c 0) else none

/-- The total function view of the permutation dictionary, `base[c]`, used
where the key is known to be in range. -/
def permFun (base : List Nat) (c : Nat) : Nat :=
  base.getD c 0

/-- One iteration of the commitment loop at node `v`: look up the node's
color (`password_coloring[v]`, `KeyError` if absent), permute it (`perm[c]`,
`KeyError` if out of the dictionary's key range), draw the node's nonce and
produce `(permuted color, nonce, commitment)`. -/
def commitNode (hash : String → String) (coloring : Nat → Option Nat)
    (base : List Nat) (nonce : Nat → String) (v : Nat) :
    Except PyErr (Nat × String × String) :=
  match coloring v with
  | none => .error .keyError
  | some c =>
    match permOf base c with
    | none => .error .keyError
    | some pc => .ok (pc, nonce v, commit hash v pc (nonce v))

/-- The commitment loop `for v in graph.nodes(): ...` over the whole node
list: it stops at the first node whose lookup raises, and otherwise fills the
`commitments`, `nonces` and `permuted` dictionaries. -/
def commitAll (hash : String → String) (coloring : Nat → Option Nat)
    (base : List Nat) (nonce : Nat → String) : List Nat → Except PyErr Unit
  | [] => .ok ()
  | v :: vs =>
    match commitNode hash coloring base nonce v with
    | .error e => .error e
    | .ok _ => commitAll hash coloring base nonce vs

/-- Reading the round's dictionaries (`permuted[u]`, `nonces[u]`,
`commitments[u]`) at a challenged endpoint: after the commitment loop has
completed, the dictionaries hold exactly the nodes of the graph, each mapped
to the values `commitNode` computed for it; a node outside the graph is a
`KeyError`. -/
def lookupNode (hash : String → String) (coloring : Nat → Option Nat)
    (base : List Nat) (nonce : Nat → String) (nodes : List Nat) (v : Nat) :
    Except PyErr (Nat × String × String) :=
  if v ∈ nodes then commitNode hash coloring base nonce v else .error .keyError

/-- The challenge edge of a round: the element of `edges` that
`random.choice(edges)` draws, as the entry at the drawn position. -/
def challengeOf (g : Graph) (rr : RoundRand) : Nat × Nat :=
  g.edges.getD rr.choice (0, 0)

/-- The reveal-and-verify block of a round (lines 113–122 of the script) for
the challenged endpoints `u` and `v`: read the round's dictionaries at both
endpoints, recompute both digests and compare them with the stored
commitments (`check_u`, `check_v`), test that the revealed permuted colors
differ (`diff`), and accept exactly when all three hold. -/
def checkEdge (hash : String → String) (coloring : Nat → Option Nat)
    (base : List Nat) (nonce : Nat → String) (nodes : List Nat) (u v : Nat) :
    Except PyErr Bool :=
  match lookupNode hash coloring base nonce nodes u with
  | .error er => .error er
  | .ok (pcu, nu, cu) =>
    match lookupNode hash coloring base nonce nodes v with
    | .error er => .error er
    | .ok (pcv, nv, cv) =>
      .ok (verify hash u pcu nu cu && verify hash v pcv nv cv && (pcu != pcv))

/-- One round of the loop body of `passwords_match` (lines 92–122 of the
script): commit every node's permuted color, draw the challenge edge
(`random.choice(edges)`, `IndexError` on an empty list), then run the
reveal-and-verify block on its endpoints. -/
def runRound (hash : String → String) (g : Graph) (coloring : Nat → Option Nat)
    (rr : RoundRand) : Except PyErr Bool :=
  match commitAll hash coloring rr.base rr.nonce g.nodes with
  | .error e => .error e
  | .ok _ =>
    if g.edges.isEmpty then .error .indexError
    else
      checkEdge hash coloring rr.base rr.nonce g.nodes
        (challengeOf g rr).1 (challengeOf g rr).2

/-- The round loop `for r in range(1, rounds + 1)` started at round `r` with
`n` iterations left: `return False` on the first rejected round, propagate a
raised exception, `return True` when the loop completes. -/
def runRounds (hash : String → String) (g : Graph) (coloring : Nat → Option Nat)
    (rnd : Nat → RoundRand) : Nat → Nat → Except PyErr Bool
  | _, 0 => .ok true
  | r, n + 1 =>
    match runRound hash g coloring (rnd r) with
    | .ok true => runRounds hash g coloring rnd (r + 1) n
    | .ok false => .ok false
    | .error e => .error e

/-- The default of the `rounds` keyword parameter in
`def passwords_match(graph, password_coloring, rounds=20, visualize=True)`. -/
def defaultRounds : Int := 20

/-- `passwords_match(graph, password_coloring, rounds)`: run
`range(1, rounds + 1)` rounds (none when `rounds ≤ 0`), returning `True` only
if every round accepts.  `rounds` is an `Int` because Python permits negative
values; `rnd r` supplies the randomness that round `r` draws. -/
def passwords_match (hash : String → String) (g : Graph)
    (coloring : Nat → Option Nat) (rnd : Nat → RoundRand)
    (rounds : Int := defaultRounds) : Except PyErr Bool :=
  runRounds hash g coloring rnd 1 rounds.toNat

/-- A color value as stored in the coloring dictionary is usable by a round
iff it is present and within the permutation dictionary's key range
`{0, 1, 2}`. -/
def GoodColor : Option Nat → Prop
  | some c => c < 3
  | none => False

instance : DecidablePred GoodColor := fun o =>
  match o with
  | some c => inferInstanceAs (Decidable (c < 3))
  | none => inferInstanceAs (Decidable False)

/-- Every node of the graph has a usable color: the shape assumption the
specification places on a coloring (total over the nodes, range `{0, 1, 2}`). -/
def ColorOK (coloring : Nat → Option Nat) (nodes : List Nat) : Prop :=
  ∀ v ∈ nodes, GoodColor (coloring v)

/-- Both endpoints of every edge are nodes of the graph — the graph invariant
`networkx` maintains. -/
def EdgesOK (g : Graph) : Prop :=
  ∀ e ∈ g.edges, e.1 ∈ g.nodes ∧ e.2 ∈ g.nodes

/-- The proper-coloring invariant: the two endpoints of every edge carry
different colors. -/
def Proper (g : Graph) (coloring : Nat → Option Nat) : Prop :=
  ∀ e ∈ g.edges, coloring e.1 ≠ coloring e.2

/-- The invariants the Python random library guarantees for every round's
draws: `random.shuffle` permutes `[0, 1, 2]` in place, and `random.choice`
returns a position below the length of the (non-empty) edge list. -/
def RandOK (g : Graph) (rnd : Nat → RoundRand) : Prop :=
  ∀ r, (rnd r).base.Perm [0, 1, 2] ∧ (rnd r).choice < g.edges.length

instance {ε α : Type} [DecidableEq ε] [DecidableEq α] : DecidableEq (Except ε α)
  | .error e, .error f =>
    if h : e = f then .isTrue (by rw [h]) else .isFalse (by intro hh; cases hh; exact h rfl)
  | .error _, .ok _ => .isFalse (by intro hh; cases hh)
  | .ok _, .error _ => .isFalse (by intro hh; cases hh)
  | .ok a, .ok b =>
    if h : a = b then .isTrue (by rw [h]) else .isFalse (by intro hh; cases hh; exact h rfl)

instance (coloring : Nat → Option Nat) (nodes : List Nat) :
    Decidable (ColorOK coloring nodes) :=
  inferInstanceAs (Decidable (∀ v ∈ nodes, GoodColor (coloring v)))

instance (g : Graph) : Decidable (EdgesOK g) :=
  inferInstanceAs (Decidable (∀ e ∈ g.edges, e.1 ∈ g.nodes ∧ e.2 ∈ g.nodes))

instance (g : Graph) (coloring : Nat → Option Nat) : Decidable (Proper g coloring) :=
  inferInstanceAs (Decidable (∀ e ∈ g.edges, coloring e.1 ≠ coloring e.2))

/-- The three-node path graph of the specification's concrete scenario:
nodes `{0, 1, 2}`, edges `{(0, 1), (1, 2)}`. -/
def exampleGraph : Graph := ⟨[0, 1, 2], [(0, 1), (1, 2)]⟩

/-- The valid coloring `{0: 0, 1: 1, 2: 0}` of the concrete scenario. -/
def validColoring : Nat → Option Nat :=
  fun v => if v = 0 then some 0 else if v = 1 then some 1 else if v = 2 then some 0 else none

/-- The invalid all-zero coloring `{0: 0, 1: 0, 2: 0}` of the concrete
scenario: both edges monochromatic. -/
def invalidColoring : Nat → Option Nat :=
  fun v => if v ≤ 2 then some 0 else none

/-- A coloring `{0: 0, 1: 1, 2: 1}` of `exampleGraph` that violates exactly
one of the two edges, namely `(1, 2)`. -/
def halfColoring : Nat → Option Nat :=
  fun v => if v = 0 then some 0 else if v ≤ 2 then some 1 else none

/-- A fixed admissible stream of round randomness: identity shuffle, empty
nonces, first edge challenged. -/
def rndA : Nat → RoundRand := fun _ => ⟨[0, 1, 2], fun _ => "", 0⟩

/-- A stream of round randomness that challenges the second edge in round 30
and the first edge in every other round. -/
def lateRand : Nat → RoundRand :=
  fun r => ⟨[0, 1, 2], fun _ => "", if r = 30 then 1 else 0⟩

/-- An empty graph missing any nodes or edges is not needed; the relevant
degenerate input is a graph with nodes but an empty edge list. -/
def edgelessGraph : Graph := ⟨[0], []⟩

/-! ### Basic lemmas about the embedding -/

theorem goodColor_iff {o : Option Nat} : GoodColor o ↔ ∃ c, o = some c ∧ c < 3 := by
  cases o <;> simp [GoodColor]

theorem colorOK_some {coloring : Nat → Option Nat} {nodes : List Nat}
    (hcol : ColorOK coloring nodes) {v : Nat} (hv : v ∈ nodes) :
    ∃ c, coloring v = some c ∧ c < 3 :=
  goodColor_iff.mp (hcol v hv)

theorem commitNode_eq (hash : String → String) (coloring : Nat → Option Nat)
    (base : List Nat) (nonce : Nat → String) {v c : Nat}
    (hc : coloring v = some c) (hc3 : c < 3) :
    commitNode hash coloring base nonce v =
      .ok (permFun base c, nonce v, commit hash v (permFun base c) (nonce v)) := by
  simp [commitNode, hc, permOf, hc3, permFun]

theorem commitNode_error {hash : String → String} {coloring : Nat → Option Nat}
    {base : List Nat} {nonce : Nat → String} {v : Nat} {e : PyErr}
    (h : commitNode hash coloring base nonce v = .error e) : e = .keyError := by
  cases hc : coloring v with
  | none =>
    simp [commitNode, hc] at h
    exact h.symm
  | some c =>
    cases hp : permOf base c with
    | none =>
      simp [commitNode, hc, hp] at h
      exact h.symm
    | some pc => simp [commitNode, hc, hp] at h

theorem commitAll_ok (hash : String → String) (coloring : Nat → Option Nat)
    (base : List Nat) (nonce : Nat → String) :
    ∀ {nodes : List Nat}, ColorOK coloring nodes →
      commitAll hash coloring base nonce nodes = .ok () := by
  intro nodes
  induction nodes with
  | nil => intro _; rfl
  | cons v vs ih =>
    intro hcol
    obtain ⟨c, hc, hc3⟩ := colorOK_some hcol (List.mem_cons_self v vs)
    simp only [commitAll, commitNode_eq hash coloring base nonce hc hc3]
    exact ih fun w hw => hcol w (List.mem_cons_of_mem v hw)

theorem commitAll_err (hash : String → String) (coloring : Nat → Option Nat)
    (base : List Nat) (nonce : Nat → String) :
    ∀ {nodes : List Nat}, (∃ v ∈ nodes, ¬ GoodColor (coloring v)) →
      commitAll hash coloring base nonce nodes = .error .keyError := by
  intro nodes
  induction nodes with
  | nil => rintro ⟨v, hv, -⟩; cases hv
  | cons v vs ih =>
    rintro ⟨w, hw, hbad⟩
    rcases List.mem_cons.mp hw with rfl | hw'
    · cases hcv : coloring w with
      | none => simp [commitAll, commitNode, hcv]
      | some c =>
        rw [hcv] at hbad
        have hc3 : ¬ c < 3 := hbad
        simp [commitAll, commitNode, hcv, permOf, hc3]
    · cases hnode : commitNode hash coloring base nonce v with
      | error e =>
        rw [commitNode_error hnode] at hnode
        simp [commitAll, hnode]
      | ok x =>
        simp only [commitAll, hnode]
        exact ih ⟨w, hw', hbad⟩

theorem verify_commit_self (hash : String → String) (v pc : Nat) (n : String) :
    verify hash v pc n (commit hash v pc n) = true := by
  simp [verify]

/-! ### The shuffled permutation -/

theorem perm_base_length {base : List Nat} (h : base.Perm [0, 1, 2]) :
    base.length = 3 := by
  simpa using h.length_eq

theorem perm_base_nodup {base : List Nat} (h : base.Perm [0, 1, 2]) :
    base.Nodup :=
  h.symm.nodup (by decide)

theorem permFun_mem {base : List Nat} (h : base.Perm [0, 1, 2]) {a : Nat}
    (ha : a < 3) : permFun base a ∈ base := by
  have hlen : a < base.length := by rw [perm_base_length h]; exact ha
  rw [permFun, List.getD_eq_getElem _ _ hlen]
  exact List.getElem_mem hlen

theorem permFun_lt {base : List Nat} (h : base.Perm [0, 1, 2]) {a : Nat}
    (ha : a < 3) : permFun base a < 3 := by
  have := h.mem_iff.mp (permFun_mem h ha)
  simp at this
  omega

theorem permFun_inj {base : List Nat} (h : base.Perm [0, 1, 2]) {a b : Nat}
    (ha : a < 3) (hb : b < 3) : permFun base a = permFun base b ↔ a = b := by
  have hlen := perm_base_length h
  have hnd := perm_base_nodup h
  have ha' : a < base.length := by omega
  have hb' : b < base.length := by omega
  rw [permFun, permFun, List.getD_eq_getElem _ _ ha', List.getD_eq_getElem _ _ hb']
  constructor
  · intro hab
    have := (hnd.get_inj_iff (i := ⟨a, ha'⟩) (j := ⟨b, hb'⟩)).mp (by simpa using hab)
    simpa using this
  · intro hab; subst hab; rfl

theorem permFun_surj {base : List Nat} (h : base.Perm [0, 1, 2]) {y : Nat}
    (hy : y < 3) : ∃ a, a < 3 ∧ permFun base a = y := by
  have hmem : y ∈ base := h.mem_iff.mpr (by interval_cases y <;> decide)
  obtain ⟨i, hi, hgi⟩ := List.mem_iff_getElem.mp hmem
  refine ⟨i, by rw [perm_base_length h] at hi; exact hi, ?_⟩
  rw [permFun, List.getD_eq_getElem _ _ hi, hgi]

/-! ### One-round lemmas -/

theorem challengeOf_mem {g : Graph} {rr : RoundRand}
    (hch : rr.choice < g.edges.length) : challengeOf g rr ∈ g.edges := by
  rw [challengeOf, List.getD_eq_getElem _ _ hch]
  exact List.getElem_mem hch

theorem checkEdge_eq (hash : String → String) (coloring : Nat → Option Nat)
    (base : List Nat) (nonce : Nat → String) {nodes : List Nat} {u v cu cv : Nat}
    (hu : u ∈ nodes) (hv : v ∈ nodes)
    (hcu : coloring u = some cu) (hcu3 : cu < 3)
    (hcv : coloring v = some cv) (hcv3 : cv < 3) :
    checkEdge hash coloring base nonce nodes u v =
      .ok (verify hash u (permFun base cu) (nonce u)
             (commit hash u (permFun base cu) (nonce u)) &&
           verify hash v (permFun base cv) (nonce v)
             (commit hash v (permFun base cv) (nonce v)) &&
           (permFun base cu != permFun base cv)) := by
  simp only [checkEdge, lookupNode, if_pos hu, if_pos hv,
    commitNode_eq hash coloring base nonce hcu hcu3,
    commitNode_eq hash coloring base nonce hcv hcv3]

theorem runRound_eq (hash : String → String) (g : Graph)
    (coloring : Nat → Option Nat) (rr : RoundRand) {u v cu cv : Nat}
    (hcol : ColorOK coloring g.nodes) (hedges : EdgesOK g)
    (hch : rr.choice < g.edges.length)
    (he : challengeOf g rr = (u, v))
    (hcu : coloring u = some cu) (hcu3 : cu < 3)
    (hcv : coloring v = some cv) (hcv3 : cv < 3) :
    runRound hash g coloring rr =
      .ok (verify hash u (permFun rr.base cu) (rr.nonce u)
             (commit hash u (permFun rr.base cu) (rr.nonce u)) &&
           verify hash v (permFun rr.base cv) (rr.nonce v)
             (commit hash v (permFun rr.base cv) (rr.nonce v)) &&
           (permFun rr.base cu != permFun rr.base cv)) := by
  have hne : g.edges.isEmpty = false := by
    rw [List.isEmpty_eq_false]
    intro h0
    rw [h0] at hch
    exact absurd hch (by simp)
  have hmem : (u, v) ∈ g.edges := he ▸ challengeOf_mem hch
  obtain ⟨hu, hv⟩ := hedges (u, v) hmem
  simp only [runRound, commitAll_ok hash coloring rr.base rr.nonce hcol, hne,
    Bool.false_eq_true, if_false, he]
  exact checkEdge_eq hash coloring rr.base rr.nonce hu hv hcu hcu3 hcv hcv3

theorem runRound_eq_simple (hash : String → String) (g : Graph)
    (coloring : Nat → Option Nat) (rr : RoundRand) {u v cu cv : Nat}
    (hcol : ColorOK coloring g.nodes) (hedges : EdgesOK g)
    (hch : rr.choice < g.edges.length)
    (he : challengeOf g rr = (u, v))
    (hcu : coloring u = some cu) (hcu3 : cu < 3)
    (hcv : coloring v = some cv) (hcv3 : cv < 3) :
    runRound hash g coloring rr =
      .ok (permFun rr.base cu != permFun rr.base cv) := by
  rw [runRound_eq hash g coloring rr hcol hedges hch he hcu hcu3 hcv hcv3,
    verify_commit_self, verify_commit_self]
  rfl

theorem runRound_accept (hash : String → String) (g : Graph)
    (coloring : Nat → Option Nat) (rr : RoundRand)
    (hcol : ColorOK coloring g.nodes) (hedges : EdgesOK g)
    (hprop : Proper g coloring)
    (hperm : rr.base.Perm [0, 1, 2]) (hch : rr.choice < g.edges.length) :
    runRound hash g coloring rr = .ok true := by
  have hmem : challengeOf g rr ∈ g.edges := challengeOf_mem hch
  obtain ⟨hu, hv⟩ := hedges _ hmem
  obtain ⟨cu, hcu, hcu3⟩ := colorOK_some hcol hu
  obtain ⟨cv, hcv, hcv3⟩ := colorOK_some hcol hv
  have hne : cu ≠ cv := by
    intro hcc
    exact hprop _ hmem (by rw [hcu, hcv, hcc])
  rw [runRound_eq_simple hash g coloring rr hcol hedges hch rfl hcu hcu3 hcv hcv3]
  have : permFun rr.base cu ≠ permFun rr.base cv :=
    fun hq => hne ((permFun_inj hperm hcu3 hcv3).mp hq)
  simp [this]

theorem runRound_mono_reject (hash : String → String) (g : Graph)
    (coloring : Nat → Option Nat) (rr : RoundRand)
    (hcol : ColorOK coloring g.nodes) (hedges : EdgesOK g)
    (hch : rr.choice < g.edges.length)
    (hmono : coloring (challengeOf g rr).1 = coloring (challengeOf g rr).2) :
    runRound hash g coloring rr = .ok false := by
  have hmem : challengeOf g rr ∈ g.edges := challengeOf_mem hch
  obtain ⟨hu, hv⟩ := hedges _ hmem
  obtain ⟨cu, hcu, hcu3⟩ := colorOK_some hcol hu
  obtain ⟨cv, hcv, hcv3⟩ := colorOK_some hcol hv
  have hcc : cu = cv := by
    rw [hcu, hcv] at hmono
    exact Option.some.inj hmono
  rw [runRound_eq_simple hash g coloring rr hcol hedges hch rfl hcu hcu3 hcv hcv3,
    hcc]
  simp

theorem runRound_keyErr (hash : String → String) (g : Graph)
    (coloring : Nat → Option Nat) (rr : RoundRand)
    (hbad : ∃ v ∈ g.nodes, ¬ GoodColor (coloring v)) :
    runRound hash g coloring rr = .error .keyError := by
  simp only [runRound, commitAll_err hash coloring rr.base rr.nonce hbad]

theorem runRound_idxErr (hash : String → String) (g : Graph)
    (coloring : Nat → Option Nat) (rr : RoundRand)
    (hcol : ColorOK coloring g.nodes) (hempty : g.edges = []) :
    runRound hash g coloring rr = .error .indexError := by
  have hne : g.edges.isEmpty = true := List.isEmpty_iff.mpr hempty
  simp only [runRound, commitAll_ok hash coloring rr.base rr.nonce hcol, hne,
    if_true]

/-! ### Multi-round lemmas -/

theorem runRounds_all_ok (hash : String → String) (g : Graph)
    (coloring : Nat → Option Nat) (rnd : Nat → RoundRand)
    (hall : ∀ i, runRound hash g coloring (rnd i) = .ok true) :
    ∀ n r : Nat, runRounds hash g coloring rnd r n = .ok true := by
  intro n
  induction n with
  | zero => intro r; rfl
  | succ m ih =>
    intro r
    simp only [runRounds, hall r]
    exact ih (r + 1)

theorem runRounds_reject (hash : String → String) (g : Graph)
    (coloring : Nat → Option Nat) (rnd : Nat → RoundRand) {k : Nat}
    (hrej : runRound hash g coloring (rnd k) = .ok false) :
    ∀ n r : Nat, r ≤ k → k < r + n →
      (∀ i, r ≤ i → i < k → runRound hash g coloring (rnd i) = .ok true) →
      runRounds hash g coloring rnd r n = .ok false := by
  intro n
  induction n with
  | zero =>
    intro r hrk hkn _
    exact absurd hkn (by omega)
  | succ m ih =>
    intro r hrk hkn hacc
    rcases eq_or_lt_of_le hrk with rfl | hlt
    · simp only [runRounds, hrej]
    · have hr : runRound hash g coloring (rnd r) = .ok true := hacc r le_rfl hlt
      simp only [runRounds, hr]
      exact ih (r + 1) hlt (by omega) fun i hi1 hi2 => hacc i (by omega) hi2

theorem runRounds_error (hash : String → String) (g : Graph)
    (coloring : Nat → Option Nat) (rnd : Nat → RoundRand) {e : PyErr}
    {r n : Nat} (hn : 1 ≤ n)
    (herr : runRound hash g coloring (rnd r) = .error e) :
    runRounds hash g coloring rnd r n = .error e := by
  cases n with
  | zero => exact absurd hn (by omega)
  | succ m => simp only [runRounds, herr]

theorem pm_complete (hash : String → String) (g : Graph)
    (coloring : Nat → Option Nat) (rnd : Nat → RoundRand) (rounds : Int)
    (hcol : ColorOK coloring g.nodes) (hedges : EdgesOK g)
    (hprop : Proper g coloring) (hrand : RandOK g rnd) :
    passwords_match hash g coloring rnd rounds = .ok true :=
  runRounds_all_ok hash g coloring rnd
    (fun i => runRound_accept hash g coloring (rnd i) hcol hedges hprop
      (hrand i).1 (hrand i).2)
    rounds.toNat 1

theorem pm_reject_round_one (hash : String → String) (g : Graph)
    (coloring : Nat → Option Nat) (rnd : Nat → RoundRand) (rounds : Int)
    (h1 : runRound hash g coloring (rnd 1) = .ok false) (hr : 1 ≤ rounds) :
    passwords_match hash g coloring rnd rounds = .ok false := by
  have h1n : 1 ≤ rounds.toNat := by omega
  exact runRounds_reject hash g coloring rnd h1 rounds.toNat 1 le_rfl (by omega)
    fun i hi1 hi2 => absurd (lt_of_le_of_lt hi1 hi2) (lt_irrefl 1)

/-! ### Injectivity of the committed message encoding -/

theorem msg_inj (v : Nat) {pc pc' : Nat} (hpc : pc < 3) (hpc' : pc' < 3)
    {n n' : String} (h : msg v pc n = msg v pc' n') : pc = pc' ∧ n = n' := by
  have hd : (msg v pc n).data = (msg v pc' n').data := by rw [h]
  simp only [msg, String.data_append, List.append_assoc] at hd
  rw [List.append_right_inj, List.append_right_inj] at hd
  have e0 : (toString (0 : Nat)).data = ['0'] := by decide
  have e1 : (toString (1 : Nat)).data = ['1'] := by decide
  have e2 : (toString (2 : Nat)).data = ['2'] := by decide
  interval_cases pc <;> interval_cases pc' <;>
    simp only [e0, e1, e2, List.cons_append, List.nil_append] at hd <;>
    simp at hd <;>
    exact ⟨rfl, String.ext hd⟩

/-- Shuffling `[0, 1, 2]` and reading the result through an injective
relabelling of `Fin 3` always yields a permutation of `[0, 1, 2]`. -/
theorem perm_mk_of_inj : ∀ gf : Fin 3 → Fin 3, Function.Injective gf →
    ([(gf 0).val, (gf 1).val, (gf 2).val]).Perm [0, 1, 2] := by decide

/-! ### Claims -/

/-- C1 (Completeness): for every graph whose edge endpoints are nodes and
that has at least one edge, every coloring that is total over the nodes with
values in `{0, 1, 2}` and satisfies the proper-coloring invariant, every
admissible outcome of the random draws (shuffles, nonces, challenges) and
every number of rounds, `passwords_match` returns `True`; in particular the
verdict does not depend on the random seed, since the randomness stream is
universally quantified. -/
theorem completeness_all_randomness (hash : String → String) (g : Graph)
    (coloring : Nat → Option Nat) (rnd : Nat → RoundRand) (rounds : Int)
    (hcol : ColorOK coloring g.nodes) (hedges : EdgesOK g)
    (_hne : g.edges ≠ []) (hprop : Proper g coloring) (hrand : RandOK g rnd) :
    passwords_match hash g coloring rnd rounds = .ok true :=
  pm_complete hash g coloring rnd rounds hcol hedges hprop hrand

theorem completeness_all_randomness_witness :
    passwords_match id exampleGraph validColoring rndA 10 = .ok true :=
  completeness_all_randomness id exampleGraph validColoring rndA 10
    (by decide) (by decide) (by decide) (by decide)
    fun _ => ⟨(by decide : ([0, 1, 2] : List Nat).Perm [0, 1, 2]),
      (by decide : (0 : Nat) < 2)⟩

/-- C2 (Single-round soundness): with a coloring that has at least one
monochromatic edge, (a) a round whose challenge edge is monochromatic is
rejected, and (b) for any fixed shuffle and nonces, the set of challenge
positions whose round is accepted has at most `|edges| − 1` elements out of
the `|edges|` equally likely positions — so under a uniform challenge the
probability of acceptance is at most `(|edges| − 1) / |edges|`. -/
theorem single_round_soundness (hash : String → String) (g : Graph)
    (coloring : Nat → Option Nat)
    (hcol : ColorOK coloring g.nodes) (hedges : EdgesOK g)
    (hmono : ∃ e ∈ g.edges, coloring e.1 = coloring e.2) :
    (∀ rr : RoundRand, rr.choice < g.edges.length →
       coloring (challengeOf g rr).1 = coloring (challengeOf g rr).2 →
       runRound hash g coloring rr = .ok false) ∧
    ∀ (base : List Nat) (nonce : Nat → String),
      ((Finset.range g.edges.length).filter
          (fun k => runRound hash g coloring ⟨base, nonce, k⟩ = .ok true)).card ≤
        g.edges.length - 1 := by
  constructor
  · intro rr hch hm
    exact runRound_mono_reject hash g coloring rr hcol hedges hch hm
  · intro base nonce
    obtain ⟨e, hemem, hemono⟩ := hmono
    obtain ⟨k0, hk0, hgetk0⟩ := List.mem_iff_getElem.mp hemem
    have hch0 : challengeOf g ⟨base, nonce, k0⟩ = e := by
      rw [challengeOf]
      show g.edges.getD k0 (0, 0) = e
      rw [List.getD_eq_getElem _ _ hk0, hgetk0]
    have hrej : runRound hash g coloring ⟨base, nonce, k0⟩ = .ok false := by
      apply runRound_mono_reject hash g coloring _ hcol hedges hk0
      rw [hch0]
      exact hemono
    have hsub : (Finset.range g.edges.length).filter
        (fun k => runRound hash g coloring ⟨base, nonce, k⟩ = .ok true) ⊆
        (Finset.range g.edges.length).erase k0 := by
      intro k hk
      rw [Finset.mem_filter, Finset.mem_range] at hk
      refine Finset.mem_erase.mpr ⟨?_, Finset.mem_range.mpr hk.1⟩
      intro hkk0
      have := hk.2
      rw [hkk0, hrej] at this
      cases this
    calc ((Finset.range g.edges.length).filter
          (fun k => runRound hash g coloring ⟨base, nonce, k⟩ = .ok true)).card
        ≤ ((Finset.range g.edges.length).erase k0).card := Finset.card_le_card hsub
      _ = g.edges.length - 1 := by
          rw [Finset.card_erase_of_mem (Finset.mem_range.mpr hk0), Finset.card_range]

theorem single_round_soundness_witness :
    ((Finset.range exampleGraph.edges.length).filter
        (fun k => runRound id exampleGraph invalidColoring
          ⟨[0, 1, 2], fun _ => "", k⟩ = .ok true)).card ≤
      exampleGraph.edges.length - 1 :=
  (single_round_soundness id exampleGraph invalidColoring
    (by decide) (by decide) (by decide)).2 [0, 1, 2] fun _ => ""

/-- C3 (Acceptance condition): whenever a round runs to its verification step
— the coloring is usable at both challenged endpoints, which are nodes of the
graph, and the challenge position is in range — the round is accepted iff the
commitment check succeeds for endpoint `u`, the commitment check succeeds for
endpoint `v`, and the two revealed permuted colors differ; failure of any of
the three makes the round return `False`. -/
theorem round_accept_iff (hash : String → String) (g : Graph)
    (coloring : Nat → Option Nat) (rr : RoundRand) {u v cu cv : Nat}
    (hcol : ColorOK coloring g.nodes) (hedges : EdgesOK g)
    (hch : rr.choice < g.edges.length)
    (he : challengeOf g rr = (u, v))
    (hcu : coloring u = some cu) (hcu3 : cu < 3)
    (hcv : coloring v = some cv) (hcv3 : cv < 3) :
    runRound hash g coloring rr = .ok true ↔
      (verify hash u (permFun rr.base cu) (rr.nonce u)
         (commit hash u (permFun rr.base cu) (rr.nonce u)) = true ∧
       verify hash v (permFun rr.base cv) (rr.nonce v)
         (commit hash v (permFun rr.base cv) (rr.nonce v)) = true ∧
       permFun rr.base cu ≠ permFun rr.base cv) := by
  rw [runRound_eq hash g coloring rr hcol hedges hch he hcu hcu3 hcv hcv3]
  simp [verify_commit_self, bne_iff_ne]

theorem round_accept_iff_witness :
    runRound id exampleGraph validColoring (rndA 1) = .ok true :=
  (round_accept_iff id exampleGraph validColoring (rndA 1)
    (by decide) (by decide) (by decide) rfl rfl (by decide) rfl (by decide)).mpr
    ⟨rfl, rfl, by decide⟩

/-- C4 (Commitment binding): assuming the digest function is collision-free
(injective), verifying a commitment against revealed values succeeds exactly
for the original (color, nonce) pair that produced it: it returns `True` for
the exact original triple and `False` whenever the color or the nonce was
altered. `verify` is a total boolean function, so no input makes it throw. -/
theorem commitment_binding (hash : String → String)
    (hinj : Function.Injective hash) (v : Nat) {pc pc' : Nat}
    (hpc : pc < 3) (hpc' : pc' < 3) (n n' : String) :
    verify hash v pc' n' (commit hash v pc n) = true ↔ pc' = pc ∧ n' = n := by
  rw [verify, beq_iff_eq]
  constructor
  · intro h
    exact msg_inj v hpc' hpc (hinj h)
  · rintro ⟨rfl, rfl⟩
    rfl

theorem commitment_binding_witness :
    verify id 5 1 "aa" (commit id 5 1 "aa") = true :=
  (commitment_binding id (fun _ _ h => h) 5 (by decide) (by decide) "aa" "aa").mpr
    ⟨rfl, rfl⟩

/-- C5 (Early exit): if rounds `1 .. k−1` accept and round `k ≤ rounds`
rejects, then `passwords_match` returns `False`; moreover the verdict is the
same for every randomness stream that agrees with the given one on rounds
`1 .. k` — the draws of rounds `k+1 .. rounds` are never consumed, which is
the observable content of "remaining rounds are skipped". -/
theorem early_exit_on_reject (hash : String → String) (g : Graph)
    (coloring : Nat → Option Nat) (rnd : Nat → RoundRand) (rounds : Int)
    (k : Nat) (hk1 : 1 ≤ k) (hkr : (k : Int) ≤ rounds)
    (hacc : ∀ i, 1 ≤ i → i < k → runRound hash g coloring (rnd i) = .ok true)
    (hrej : runRound hash g coloring (rnd k) = .ok false) :
    passwords_match hash g coloring rnd rounds = .ok false ∧
    ∀ rnd' : Nat → RoundRand, (∀ i, i ≤ k → rnd' i = rnd i) →
      passwords_match hash g coloring rnd' rounds = .ok false := by
  have hkn : k ≤ rounds.toNat := by omega
  constructor
  · exact runRounds_reject hash g coloring rnd hrej rounds.toNat 1 hk1 (by omega)
      fun i hi1 hi2 => hacc i hi1 hi2
  · intro rnd' hag
    have hrej' : runRound hash g coloring (rnd' k) = .ok false := by
      rw [hag k le_rfl]
      exact hrej
    refine runRounds_reject hash g coloring rnd' hrej' rounds.toNat 1 hk1 (by omega) ?_
    intro i hi1 hi2
    rw [hag i (by omega)]
    exact hacc i hi1 hi2

theorem early_exit_on_reject_witness :
    passwords_match id exampleGraph invalidColoring rndA 5 = .ok false :=
  (early_exit_on_reject id exampleGraph invalidColoring rndA 5 1
    (by decide) (by decide)
    (fun i hi1 hi2 => absurd (lt_of_le_of_lt hi1 hi2) (lt_irrefl 1))
    (by decide)).1

/-- C6 counterexample: with the invalid all-zero coloring and `rounds = 0`
the round loop body never runs and `passwords_match` returns `True`, so
"returns false deterministically regardless of the value of rounds" fails at
`rounds = 0`. -/
theorem concrete_scenario_cex :
    passwords_match id exampleGraph invalidColoring rndA 0 = .ok true := rfl

/-- C6 (Concrete scenario, amended): on the graph with nodes `{0, 1, 2}` and
edges `{(0, 1), (1, 2)}`, `passwords_match` with the valid coloring
`{0: 0, 1: 1, 2: 0}` and `rounds = 10` returns `True` for every outcome of
the randomness; with the invalid coloring `{0: 0, 1: 0, 2: 0}` (both edges
monochromatic) it returns `False` for every outcome of the randomness and
every `rounds ≥ 1` (for `rounds ≤ 0` the loop body never runs and the result
is `True`). -/
theorem concrete_scenario :
    (∀ (hash : String → String) (rnd : Nat → RoundRand),
       RandOK exampleGraph rnd →
       passwords_match hash exampleGraph validColoring rnd 10 = .ok true) ∧
    ∀ (hash : String → String) (rnd : Nat → RoundRand) (rounds : Int),
      RandOK exampleGraph rnd → 1 ≤ rounds →
      passwords_match hash exampleGraph invalidColoring rnd rounds = .ok false := by
  constructor
  · intro hash rnd hrand
    exact pm_complete hash exampleGraph validColoring rnd 10
      (by decide) (by decide) (by decide) hrand
  · intro hash rnd rounds hrand hr
    have hall : ∀ e ∈ exampleGraph.edges,
        invalidColoring e.1 = invalidColoring e.2 := by decide
    have h1 : runRound hash exampleGraph invalidColoring (rnd 1) = .ok false :=
      runRound_mono_reject hash exampleGraph invalidColoring (rnd 1)
        (by decide) (by decide) (hrand 1).2
        (hall _ (challengeOf_mem (hrand 1).2))
    exact pm_reject_round_one hash exampleGraph invalidColoring rnd rounds h1 hr

theorem concrete_scenario_witness :
    passwords_match id exampleGraph invalidColoring rndA 7 = .ok false :=
  concrete_scenario.2 id rndA 7
    (fun _ => ⟨(by decide : ([0, 1, 2] : List Nat).Perm [0, 1, 2]),
      (by decide : (0 : Nat) < 2)⟩)
    (by decide)

/-- C7 counterexample: on a graph with an empty edge list and `rounds = 0`,
`passwords_match` silently returns `True` — no error is signalled before the
round loop, refuting "it never silently returns true for a graph with an
empty edge set". -/
theorem no_validation_cex :
    passwords_match id edgelessGraph (fun _ => some 0) rndA 0 = .ok true := rfl

/-- C7 (Fail-fast, amended): `passwords_match` performs no input validation
before the round loop. With `rounds ≤ 0` it returns `True` even for an empty
edge set or an unusable coloring. With `rounds ≥ 1`, an empty edge set makes
round 1 raise `IndexError` at the challenge step (after the commitment loop
over all nodes), and a coloring that is missing a node's entry (or maps one
outside `{0, 1, 2}`) makes round 1 raise `KeyError` inside the commitment
loop. -/
theorem no_validation (hash : String → String) (g : Graph)
    (coloring : Nat → Option Nat) (rnd : Nat → RoundRand) (rounds : Int) :
    (g.edges = [] → ColorOK coloring g.nodes → 1 ≤ rounds →
       passwords_match hash g coloring rnd rounds = .error .indexError) ∧
    ((∃ v ∈ g.nodes, ¬ GoodColor (coloring v)) → 1 ≤ rounds →
       passwords_match hash g coloring rnd rounds = .error .keyError) ∧
    (rounds ≤ 0 → passwords_match hash g coloring rnd rounds = .ok true) := by
  refine ⟨?_, ?_, ?_⟩
  · intro hempty hcol hr
    exact runRounds_error hash g coloring rnd (by omega)
      (runRound_idxErr hash g coloring (rnd 1) hcol hempty)
  · intro hbad hr
    exact runRounds_error hash g coloring rnd (by omega)
      (runRound_keyErr hash g coloring (rnd 1) hbad)
  · intro hr
    have h0 : rounds.toNat = 0 := by omega
    rw [passwords_match, h0]
    rfl

theorem no_validation_witness :
    passwords_match id edgelessGraph (fun _ => some 0) rndA 2 =
      .error .indexError :=
  (no_validation id edgelessGraph (fun _ => some 0) rndA 2).1 rfl
    (by decide) (by decide)

/-- C8 (Shuffled permutation): for every outcome of the shuffle — every
`base` that is a permutation of `[0, 1, 2]` — the mapping `i ↦ base[i]` maps
`{0, 1, 2}` into `{0, 1, 2}` injectively and surjectively (a bijection) and
preserves the different-colors relation; every bijection of `Fin 3` is
realised by exactly one shuffle outcome, so the uniform distribution over the
6 shuffle outcomes pushes forward to the uniform distribution over the
`3! = 6` permutations. -/
theorem shuffle_bijection :
    (∀ base : List Nat, base.Perm [0, 1, 2] →
       (∀ a, a < 3 → permFun base a < 3) ∧
       (∀ a, a < 3 → ∀ b, b < 3 → (permFun base a = permFun base b ↔ a = b)) ∧
       (∀ y, y < 3 → ∃ a, a < 3 ∧ permFun base a = y) ∧
       (∀ a, a < 3 → ∀ b, b < 3 →
          (permFun base a ≠ permFun base b ↔ a ≠ b))) ∧
    (∀ f : Equiv.Perm (Fin 3), ∃! base : List Nat,
       base.Perm [0, 1, 2] ∧ ∀ c : Fin 3, permFun base c.val = (f c).val) ∧
    Fintype.card (Equiv.Perm (Fin 3)) = 6 := by
  refine ⟨?_, ?_, ?_⟩
  · intro base hb
    exact ⟨fun a ha => permFun_lt hb ha,
      fun a ha b hbb => permFun_inj hb ha hbb,
      fun y hy => permFun_surj hb hy,
      fun a ha b hbb => not_congr (permFun_inj hb ha hbb)⟩
  · intro f
    refine ⟨[(f 0).val, (f 1).val, (f 2).val],
      ⟨perm_mk_of_inj f f.injective, ?_⟩, ?_⟩
    · intro c
      fin_cases c <;> rfl
    · rintro base' ⟨hp', hag'⟩
      obtain ⟨a, b, c, rfl⟩ := List.length_eq_three.mp (perm_base_length hp')
      have h0 : a = (f 0).val := hag' 0
      have h1 : b = (f 1).val := hag' 1
      have h2 : c = (f 2).val := hag' 2
      rw [h0, h1, h2]
  · rw [Fintype.card_perm, Fintype.card_fin]
    rfl

theorem shuffle_bijection_witness :
    permFun [1, 0, 2] 0 = permFun [1, 0, 2] 1 ↔ (0 : Nat) = 1 :=
  (shuffle_bijection.1 [1, 0, 2] (by decide)).2.1 0 (by decide) 1 (by decide)

/-- C9 counterexample: the default of the `rounds` parameter of
`passwords_match` is 20, not 40; with a coloring violating only edge
`(1, 2)` and a randomness stream that first challenges that edge in round
30, a call using the default returns `True` while a call with `rounds = 40`
returns `False`, so the two defaults are observably different. -/
theorem default_rounds_cex :
    defaultRounds = 20 ∧ ¬ defaultRounds = 40 ∧
    passwords_match id exampleGraph halfColoring lateRand = .ok true ∧
    passwords_match id exampleGraph halfColoring lateRand 40 = .ok false :=
  ⟨rfl, by decide, by decide, by decide⟩

/-- C9 (Default rounds, amended): the default value of the `rounds` parameter
of `passwords_match` is 20; the script's reference invocation in its main
block passes `rounds = 40` explicitly. -/
theorem default_rounds_is_twenty :
    defaultRounds = 20 ∧
    ∀ (hash : String → String) (g : Graph) (coloring : Nat → Option Nat)
      (rnd : Nat → RoundRand),
      passwords_match hash g coloring rnd = passwords_match hash g coloring rnd 20 :=
  ⟨rfl, fun _ _ _ _ => rfl⟩

/-- C10 (Non-positive rounds): for `rounds ≤ 0` the loop `range(1, rounds + 1)`
is empty, so `passwords_match` returns `True` for every graph and every
coloring — including improper colorings and empty edge sets — with no
validation performed. -/
theorem nonpositive_rounds_true (hash : String → String) (g : Graph)
    (coloring : Nat → Option Nat) (rnd : Nat → RoundRand) (rounds : Int)
    (h : rounds ≤ 0) :
    passwords_match hash g coloring rnd rounds = .ok true := by
  have h0 : rounds.toNat = 0 := by omega
  rw [passwords_match, h0]
  rfl

theorem nonpositive_rounds_true_witness :
    passwords_match id edgelessGraph (fun _ => none) rndA (-7) = .ok true :=
  nonpositive_rounds_true id edgelessGraph (fun _ => none) rndA (-7) (by decide)

end ZKP
